import Mathlib

/-!
Verification of the field-level bidirectional transformation and binding
layer of `integrations/serializers.py` (classes `BaseSerializableField`,
`IntegerField`, `BindableListSerializer`, `BindableModelSerializer`).

The Python code is shallowly embedded as follows.

* Python `Decimal` values and the integers flowing through the transform
  pipeline are modelled as `ℚ`.  A `decimal.localcontext()` with precision
  `p` rounds every arithmetic result to `p` significant digits with
  round-half-even; this is `roundSig`.  When no precision is supplied the
  default context precision 28 applies (`localcontext()` copies the default
  context), hence `Option.getD 28` below.  Python `int(...)` on a `Decimal`
  truncates towards zero (`truncQ`).
* External payloads (nested JSON-like data) are the inductive type `Val`;
  Python `dict.get` is association-list lookup (`dictGet`), insertion
  preserving order is `dictSet`.
* DRF's per-field `run_validation` / custom `validate_<name>` hooks and the
  base scalar coercion are abstracted as an outcome-valued function
  (`VOutcome`): they either succeed with a value, raise a
  `ValidationError` with a detail, raise a `DjangoValidationError` with a
  list of messages, or raise `SkipField`.  All control flow around these
  calls is modelled from the source.
* Python exceptions that the source does *not* catch (UnboundLocalError,
  AttributeError, TypeError) are a distinguished `CrashKind` error,
  separate from the validation-failure results.
-/

/-! ## Decimal arithmetic model -/

/-- Fuel-driven base-10 logarithm on `ℕ`: `natLog10 n = ⌊log₁₀ n⌋` for `n ≥ 1`. -/
def natLog10Aux : Nat → Nat → Nat
  | 0, _ => 0
  | fuel+1, n => if n < 10 then 0 else natLog10Aux fuel (n / 10) + 1

def natLog10 (n : Nat) : Nat := natLog10Aux n n

/-- `10^e` in `ℚ`, for an integer (possibly negative) exponent. -/
def pow10 (e : Int) : ℚ := (10 : ℚ) ^ e

/-- `⌊log₁₀ |q|⌋` for a nonzero rational: the unique `e` with `10^e ≤ |q| < 10^(e+1)`. -/
def qLog10 (q : ℚ) : Int :=
  let e0 : Int := (natLog10 q.num.natAbs : Int) - (natLog10 q.den : Int)
  if pow10 e0 ≤ |q| then e0 else e0 - 1

/-- Round a rational to the nearest integer, ties to even
(Python `decimal`'s default `ROUND_HALF_EVEN`). -/
def rhe (x : ℚ) : Int :=
  let f := ⌊x⌋
  if x - f < 1/2 then f
  else if (1:ℚ)/2 < x - f then f + 1
  else if Even f then f else f + 1

/-- Round a nonzero rational to `p` significant digits, half-even: the model of
producing a `Decimal` arithmetic result under a context with `prec = p`. -/
def roundSig (p : Nat) (q : ℚ) : ℚ :=
  if q = 0 then 0
  else
    let e := qLog10 q
    ((rhe (q * pow10 ((p : Int) - 1 - e)) : ℚ)) * pow10 (e + 1 - (p : Int))

/-- Python `int(...)` on a `Decimal`: truncation towards zero. -/
def truncQ (q : ℚ) : Int := if 0 ≤ q then ⌊q⌋ else ⌈q⌉

/-! ## The transform operations (`IntegerField` static methods) -/

namespace IntegerField

/-- `IntegerField.multiply(operand, value, reverse=False, precision=None)`
(serializers.py lines 99-112): inside `localcontext()` with `ctx.prec`
set to `precision` when given (default context precision 28 otherwise),
`operand` is converted to `Decimal` (exact); the reverse direction returns
`operand / value` (one context-rounded division, no truncation), the
forward direction returns `int(operand * value)` (one context-rounded
multiplication, truncated to an integer). -/
def multiply (operand value : ℚ) (reverse : Bool) (precision : Option Nat) : ℚ :=
  let prec := precision.getD 28
  if reverse then roundSig prec (operand / value)
  else ((truncQ (roundSig prec (operand * value)) : Int) : ℚ)

/-- `IntegerField.add(operand, value, reverse=False)` (lines 125-127):
plain arbitrary-precision addition, subtraction when `reverse`. -/
def add (operand value : ℚ) (reverse : Bool) : ℚ :=
  if reverse then operand - value else operand + value

/-- `IntegerField.subtract(operand, value, reverse=False)` (lines 129-131). -/
def subtract (operand value : ℚ) (reverse : Bool) : ℚ :=
  if reverse then operand + value else operand - value

end IntegerField

/-! ## Field transform pipeline and export (`BaseSerializableField`) -/

/-- The transform kinds a field can listen for (`transformations =
['multiply', 'divide', 'add', 'subtract']`; `divide` is commented out in the
source, so `hasattr` fails for it and it can never be registered). -/
inductive TKind
  | multiply
  | add
  | subtract
deriving DecidableEq

/-- One registered transform: a `(method, params)` pair stored in
`self.import_methods` by `listen_for_transformations`. -/
structure TStep where
  kind : TKind
  param : ℚ

/-- Dispatch of a stored `(method, param)` pair, as a call
`method(operand, param, reverse=..., precision=...)`.  Note `add` and
`subtract` take no `precision` parameter in the source; the export path
(the only transform-applying path modelled here) never passes one. -/
def applyStep (s : TStep) (operand : ℚ) (reverse : Bool) (precision : Option Nat) : ℚ :=
  match s.kind with
  | TKind.multiply => IntegerField.multiply operand s.param reverse precision
  | TKind.add => IntegerField.add operand s.param reverse
  | TKind.subtract => IntegerField.subtract operand s.param reverse

/-- The per-field configuration relevant to `to_representation`:
`self.import_methods`, `self.export_override`, `self.export_formatter`,
`self.precision`. -/
structure ReprField where
  import_methods : List TStep
  export_override : Option (List TStep)
  export_formatter : Option (ℚ → ℚ)
  precision : Option Nat

/-- `BaseSerializableField.to_representation(obj)` (lines 60-77), applied to
the already base-serialized value `base` (`super().to_representation(obj)`).
With an override, each `(transform_override, param)` is called as
`transform_override(result, param)` — forward direction, default precision.
Otherwise each stored import method is called in stored order as
`transform_method(result, param, reverse=True)` — note: in stored order, and
without passing `self.precision`.  The formatter, if any, runs last. -/
def to_representation (f : ReprField) (base : ℚ) : ℚ :=
  let result :=
    match f.export_override with
    | some steps => steps.foldl (fun r s => applyStep s r false none) base
    | none => f.import_methods.foldl (fun r s => applyStep s r true none) base
  match f.export_formatter with
  | some fmt => fmt result
  | none => result

/-- Spec-side reading of claim C1: export applies the pipeline steps in
*reverse* declared order, each inverted, to the base-serialized value. -/
def exportReverseOrderInverted (f : ReprField) (base : ℚ) : ℚ :=
  f.import_methods.reverse.foldl (fun r s => applyStep s r true none) base

/-- The inverse of a single pipeline step, spelled out per operation kind:
decimal division for `multiply` (at default context precision, since the
export path passes no precision), subtraction for `add`, addition for
`subtract`. -/
def invStepApply (s : TStep) (r : ℚ) : ℚ :=
  match s.kind with
  | TKind.multiply => IntegerField.multiply r s.param true none
  | TKind.add => IntegerField.add r s.param true
  | TKind.subtract => IntegerField.subtract r s.param true

/-- Spec-side amended reading of C1: export applies the pipeline steps in
*declared* order, each inverted. -/
def exportDeclaredOrderInverted (f : ReprField) (base : ℚ) : ℚ :=
  f.import_methods.foldl (fun r s => invStepApply s r) base

/-- Concrete two-step pipeline (`multiply=10, add=7`, no override, no
formatter, no precision) used to settle C1. -/
def c1Field : ReprField :=
  ReprField.mk [TStep.mk TKind.multiply 10, TStep.mk TKind.add 7] none none none

/-! ## The `export` constructor check (`BaseSerializableField.__init__`) -/

/-- A Python value passed as the `export` kwarg: either an ordered sequence
of `(transform, operand)` pairs (what `to_representation` iterates over), or
a callable. -/
inductive ExportArg
  | pairs (steps : List TStep)
  | fn (f : ℚ → ℚ)

/-- Python `callable(...)` on an `export` argument: sequences (lists/tuples
of pairs) are not callable, functions are. -/
def pyCallable : ExportArg → Bool
  | ExportArg.pairs _ => false
  | ExportArg.fn _ => true

/-- The `export` validation in `BaseSerializableField.__init__` (lines
23-26): `if 'export' in kwargs: self.export_override = kwargs.get('export');
if not callable(self.export_override): raise TypeError(...)`. -/
def initExportCheck : Option ExportArg → Except String Unit
  | none => Except.ok ()
  | some a =>
      if pyCallable a then Except.ok ()
      else Except.error "export must be a callable"

/-! ## External payload values -/

/-- JSON-like external data: Python `None`, numbers, strings, lists, dicts
(association lists preserving insertion order). -/
inductive Val
  | vnone
  | num (q : ℚ)
  | str (s : String)
  | list (items : List Val)
  | dict (entries : List (String × Val))

/-- Python `d.get(k)` on a dict, `None`-free: association-list lookup. -/
def dictGet : List (String × Val) → String → Option Val
  | [], _ => none
  | (k', v) :: rest, k => if k' = k then some v else dictGet rest k

/-- Python `d[k] = v`: replace in place if present, else append. -/
def dictSet : List (String × Val) → String → Val → List (String × Val)
  | [], k, v => [(k, v)]
  | (k', v') :: rest, k, v =>
      if k' = k then (k, v) :: rest else (k', v') :: dictSet rest k v

def isDict : Val → Bool
  | Val.dict _ => true
  | _ => false

def isList : Val → Bool
  | Val.list _ => true
  | _ => false

/-- Python truthiness of the values used as error details / placeholders. -/
def valTruthy : Val → Bool
  | Val.vnone => false
  | Val.num q => decide (q ≠ 0)
  | Val.str s => decide (s ≠ "")
  | Val.list items => !items.isEmpty
  | Val.dict entries => !entries.isEmpty

/-- Python `key.split('.')`: splits on every dot, keeping empty segments. -/
def splitDotsAux : List Char → List Char → List String
  | [], acc => [String.mk acc.reverse]
  | c :: cs, acc =>
      if c = '.' then String.mk acc.reverse :: splitDotsAux cs []
      else splitDotsAux cs (c :: acc)

def splitDots (s : String) : List String := splitDotsAux s.toList []

/-! ## Dot-path resolution -/

/-- The walk in `BaseSerializableField.to_internal_value` (lines 40-42):
`for step in self.key.split('.'): result = result.get(step)`.  A missing key
yields Python `None`; calling `.get` on `None` or any non-dict raises
`AttributeError`, modelled as `Except.error ()`. -/
def walkField : List String → Val → Except Unit Val
  | [], v => Except.ok v
  | k :: ks, Val.dict es => walkField ks ((dictGet es k).getD Val.vnone)
  | _ :: _, _ => Except.error ()

/-- The walk in `BindableModelSerializer.to_internal_value` (lines 281-282):
`for step in field.key.split('.'): result = result.get(step, {})`.  A missing
key yields `{}` (so the walk continues safely); `.get` on a non-dict still
raises `AttributeError`. -/
def walkRecord : List String → Val → Except Unit Val
  | [], v => Except.ok v
  | k :: ks, Val.dict es => walkRecord ks ((dictGet es k).getD (Val.dict []))
  | _ :: _, _ => Except.error ()

/-- Lines 284-287: after the record-level walk, a non-dict result is wrapped
as `{field.field_name: result}` and the primitive value is
`field.get_value(result)`, i.e. `result.get(field.field_name, empty)`; the
sentinel `empty` (field absent) is `Option.none` here. -/
def recordResolve (fieldName : String) (ks : List String) (v : Val) :
    Except Unit (Option Val) :=
  match walkRecord ks v with
  | Except.error e => Except.error e
  | Except.ok r =>
      let r' := if isDict r then r else Val.dict [(fieldName, r)]
      match r' with
      | Val.dict es => Except.ok (dictGet es fieldName)
      | _ => Except.ok none

/-- Spec-side strict path lookup: the value at a dot path when every segment
is present (each intermediate being a mapping that contains the segment). -/
def lookupPath : List String → Val → Option Val
  | [], v => some v
  | k :: ks, Val.dict es =>
      match dictGet es k with
      | some w => lookupPath ks w
      | none => none
  | _ :: _, _ => none

/-- Spec-side "some segment is missing": walking from `v`, every segment up
to some point finds a mapping, and then a segment is absent from it. -/
def missingAt : List String → Val → Bool
  | [], _ => false
  | k :: ks, Val.dict es =>
      match dictGet es k with
      | none => true
      | some w => missingAt ks w
  | _ :: _, _ => false

/-- The example payload `{"a": {"b": {"c": 5}}}` from the spec. -/
def c4Payload : Val :=
  Val.dict [("a", Val.dict [("b", Val.dict [("c", Val.num 5)])])]

/-! ## Per-field validation outcomes -/

/-- Result of `field.run_validation(...)` or a custom `validate_<name>`
method: success, `ValidationError` (with `exc.detail`),
`DjangoValidationError` (with `exc.messages`), or `SkipField`. -/
inductive VOutcome
  | ok (v : Val)
  | invalid (d : Val)
  | djangoInvalid (msgs : List String)
  | skip

/-- One writable field of a `BindableModelSerializer`, as it exists after
binding: `field_name` (rebound to `key` by the `bind` overrides when a key
is set), the `key` attribute, `source_attrs` (derived from the declared
attribute name, not the rebound one), and its abstracted validation
behaviour on a resolved primitive value (`Option.none` = the `empty`
sentinel returned by `get_value` for an absent key). -/
structure FieldM where
  fieldName : String
  key : Option String
  sourceAttrs : List String
  validate : Option Val → VOutcome

/-- Uncaught Python exceptions escaping `to_internal_value`. -/
inductive CrashKind
  | unboundLocal
  | attributeError
  | typeError
deriving DecidableEq

/-- Failure modes of `BindableModelSerializer.to_internal_value`. -/
inductive RecFail
  | notAMapping
  | crash (c : CrashKind)
  | fieldErrors (errs : List (String × Val))

/-- Failure modes of `BindableListSerializer.to_internal_value`. -/
inductive ListFail
  | notAList
  | emptyNotAllowed
  | itemErrors (slots : List Val)

/-- DRF `set_value(dictionary, keys, value)`: with no keys, merge `value`
into the dict (`dictionary.update(value)` — a `TypeError` if `value` is not
a mapping); otherwise navigate the leading keys, creating `{}` for missing
ones, and assign at the last key.  Indexing a non-dict raises `TypeError`. -/
def setValue : Val → List String → Val → Except Unit Val
  | Val.dict a, [], Val.dict b =>
      Except.ok (Val.dict (b.foldl (fun acc p => dictSet acc p.1 p.2) a))
  | _, [], _ => Except.error ()
  | Val.dict es, [k], v => Except.ok (Val.dict (dictSet es k v))
  | _, [_], _ => Except.error ()
  | Val.dict es, k :: k2 :: rest, v =>
      match setValue ((dictGet es k).getD (Val.dict [])) (k2 :: rest) v with
      | Except.ok sub => Except.ok (Val.dict (dictSet es k sub))
      | Except.error e => Except.error e
  | _, _ :: _ :: _, _ => Except.error ()

/-- Per-call scratch state of the record import loop: the output mapping
`ret` and the error map `errors` (an `OrderedDict`). -/
structure RecState where
  ret : Val
  errors : List (String × Val)

/-- The `try/except/else` body of the record import loop (lines 289-300),
applied to a field once its primitive value has been resolved:
`run_validation`, then the custom `validate_<field_name>` method if one is
registered; `ValidationError` / `DjangoValidationError` record
`errors[field.field_name]`, `SkipField` does nothing, success runs
`set_value(ret, field.source_attrs, validated_value)` (whose own exceptions
are *not* caught — they escape as a `TypeError` crash). -/
def applyPv (vm : String → Option (Val → VOutcome)) (f : FieldM) (pv : Option Val)
    (st : RecState) : Except CrashKind RecState :=
  match f.validate pv with
  | VOutcome.invalid d =>
      Except.ok (RecState.mk st.ret (dictSet st.errors f.fieldName d))
  | VOutcome.djangoInvalid msgs =>
      Except.ok (RecState.mk st.ret (dictSet st.errors f.fieldName (Val.list (msgs.map Val.str))))
  | VOutcome.skip => Except.ok st
  | VOutcome.ok v =>
      match vm f.fieldName with
      | none =>
          match setValue st.ret f.sourceAttrs v with
          | Except.ok r => Except.ok (RecState.mk r st.errors)
          | Except.error _ => Except.error CrashKind.typeError
      | some m =>
          match m v with
          | VOutcome.ok v' =>
              match setValue st.ret f.sourceAttrs v' with
              | Except.ok r => Except.ok (RecState.mk r st.errors)
              | Except.error _ => Except.error CrashKind.typeError
          | VOutcome.invalid d =>
              Except.ok (RecState.mk st.ret (dictSet st.errors f.fieldName d))
          | VOutcome.djangoInvalid msgs =>
              Except.ok (RecState.mk st.ret (dictSet st.errors f.fieldName (Val.list (msgs.map Val.str))))
          | VOutcome.skip => Except.ok st

/-- Resolution of one keyed field's primitive value (lines 278-287): the
record-level dot-path walk over a copy of the whole input, the non-dict
wrap, and `field.get_value`.  (The `isinstance(field, ...)` guard in the
source is always true: every DRF field and serializer is a
`serializers.Field`.) -/
def resolveKeyed (f : FieldM) (k : String) (entries : List (String × Val)) :
    Except Unit (Option Val) :=
  recordResolve f.fieldName (splitDots k) (Val.dict entries)

/-- The field loop of `BindableModelSerializer.to_internal_value` (lines
275-300).  `primitive_value` is a Python local that is only assigned inside
the `if field.key is not None` branch; for a keyless field the value
assigned by the most recent keyed field is reused, and if no field has
assigned it yet, referencing it raises `UnboundLocalError`.  That local is
the third argument (`none` = not yet bound). -/
def recordLoop (vm : String → Option (Val → VOutcome)) (entries : List (String × Val)) :
    List FieldM → RecState → Option (Option Val) → Except CrashKind RecState
  | [], st, _ => Except.ok st
  | f :: fs, st, pvS =>
      match f.key with
      | some k =>
          match resolveKeyed f k entries with
          | Except.error _ => Except.error CrashKind.attributeError
          | Except.ok pv =>
              match applyPv vm f pv st with
              | Except.error c => Except.error c
              | Except.ok st' => recordLoop vm entries fs st' (some pv)
      | none =>
          match pvS with
          | none => Except.error CrashKind.unboundLocal
          | some pv =>
              match applyPv vm f pv st with
              | Except.error c => Except.error c
              | Except.ok st' => recordLoop vm entries fs st' (some pv)

namespace BindableModelSerializer

/-- `BindableModelSerializer.to_internal_value(data)` (lines 258-305):
reject non-mapping input at record level, run the field loop over
`self._writable_fields` in declaration order, then raise the accumulated
error map if non-empty, else return the assembled mapping. -/
def to_internal_value (vm : String → Option (Val → VOutcome)) (fields : List FieldM)
    (data : Val) : Except RecFail Val :=
  match data with
  | Val.dict entries =>
      match recordLoop vm entries fields (RecState.mk (Val.dict []) []) none with
      | Except.error c => Except.error (RecFail.crash c)
      | Except.ok st =>
          if st.errors.isEmpty then Except.ok st.ret
          else Except.error (RecFail.fieldErrors st.errors)
  | _ => Except.error RecFail.notAMapping

end BindableModelSerializer

/-! ## List import (`BindableListSerializer`) -/

/-- The item loop of `BindableListSerializer.to_internal_value` (lines
197-207): per item, `self.child.run_validation(item)`; a `ValidationError`
appends its detail to `errors` (and nothing to `ret`), success appends the
value to `ret` and `{}` to `errors`. -/
def listLoop (child : Val → Except Val Val) : List Val → List Val × List Val
  | [] => ([], [])
  | item :: rest =>
      let p := listLoop child rest
      match child item with
      | Except.error d => (p.1, d :: p.2)
      | Except.ok v => (v :: p.1, Val.dict [] :: p.2)

namespace BindableListSerializer

/-- `BindableListSerializer.to_internal_value(data)` (lines 176-212):
reject non-list input, reject empty input unless `allow_empty`, run the
item loop, and fail with the whole error list iff `any(errors)` (Python
truthiness: an all-falsy error list is not a failure). -/
def to_internal_value (allow_empty : Bool) (child : Val → Except Val Val)
    (data : Val) : Except ListFail (List Val) :=
  match data with
  | Val.list items =>
      if items.isEmpty && !allow_empty then Except.error ListFail.emptyNotAllowed
      else
        let p := listLoop child items
        if p.2.any valTruthy then Except.error (ListFail.itemErrors p.2)
        else Except.ok p.1
  | _ => Except.error ListFail.notAList

end BindableListSerializer

/-- Spec-side C3: the per-index error sequence (failure detail at failed
indices, an empty placeholder at successful ones). -/
def itemSlots (child : Val → Except Val Val) (items : List Val) : List Val :=
  items.map (fun it =>
    match child it with
    | Except.error d => d
    | Except.ok _ => Val.dict [])

/-- Spec-side C3: the success sequence (converted values of the items that
validated, in index order). -/
def itemSuccesses (child : Val → Except Val Val) (items : List Val) : List Val :=
  items.filterMap (fun it => (child it).toOption)

/-! ## Spec-side decomposition of the record import loop (for C2) -/

/-- The (error-detail?, success-value?) outcome of one field whose primitive
value resolved to `pv`: at most one of the two components is `some`. -/
def fieldOutcome (vm : String → Option (Val → VOutcome)) (f : FieldM) (pv : Option Val) :
    Option Val × Option Val :=
  match f.validate pv with
  | VOutcome.invalid d => (some d, none)
  | VOutcome.djangoInvalid msgs => (some (Val.list (msgs.map Val.str)), none)
  | VOutcome.skip => (none, none)
  | VOutcome.ok v =>
      match vm f.fieldName with
      | none => (none, some v)
      | some m =>
          match m v with
          | VOutcome.ok v' => (none, some v')
          | VOutcome.invalid d => (some d, none)
          | VOutcome.djangoInvalid msgs => (some (Val.list (msgs.map Val.str)), none)
          | VOutcome.skip => (none, none)

/-- Pair every field with the primitive value its validation receives,
threading the `primitive_value` local: a keyed field resolves its own, a
keyless field reuses the most recent one.  `Except.error ()` when resolution
would crash (unbound local or a walk over a non-mapping). -/
def pvPairs (entries : List (String × Val)) :
    List FieldM → Option (Option Val) → Except Unit (List (FieldM × Option Val))
  | [], _ => Except.ok []
  | f :: fs, carried =>
      match f.key with
      | some k =>
          match resolveKeyed f k entries with
          | Except.error e => Except.error e
          | Except.ok pv =>
              match pvPairs entries fs (some pv) with
              | Except.ok l => Except.ok ((f, pv) :: l)
              | Except.error e => Except.error e
      | none =>
          match carried with
          | none => Except.error ()
          | some pv =>
              match pvPairs entries fs (some pv) with
              | Except.ok l => Except.ok ((f, pv) :: l)
              | Except.error e => Except.error e

/-- Spec-side C2: the accumulated error map — every failed field records
`{fieldName: detail}`; successful fields record nothing. -/
def errsOf (vm : String → Option (Val → VOutcome)) (l : List (FieldM × Option Val)) :
    List (String × Val) :=
  l.foldl (fun e p =>
    match (fieldOutcome vm p.1 p.2).1 with
    | some d => dictSet e p.1.fieldName d
    | none => e) []

/-- Spec-side C2: the assembled internal mapping — every successful field
assigns its validated value at its (single-attribute) internal destination. -/
def retOf (vm : String → Option (Val → VOutcome)) (l : List (FieldM × Option Val)) : Val :=
  l.foldl (fun r p =>
    match (fieldOutcome vm p.1 p.2).2 with
    | some v =>
        match setValue r p.1.sourceAttrs v with
        | Except.ok r' => r'
        | Except.error _ => r
    | none => r) (Val.dict [])

/-! ## Concrete fixtures used by witnesses -/

/-- A child validator for the C3 witness: strings fail with detail
`{"age": "bad"}`, everything else validates to itself. -/
def c3Child : Val → Except Val Val
  | Val.str _ => Except.error (Val.dict [("age", Val.str "bad")])
  | w => Except.ok w

/-- C2 witness fixture: a text field bound to external key `"name"` that
accepts any present value and fails when absent. -/
def c2NameField : FieldM :=
  FieldM.mk "name" (some "name") ["name"]
    (fun pv =>
      match pv with
      | some v => VOutcome.ok v
      | none => VOutcome.invalid (Val.str "This field is required."))

/-- C2 witness fixture: an integer field bound to external key `"age"` that
accepts numbers and rejects everything else. -/
def c2AgeField : FieldM :=
  FieldM.mk "age" (some "age") ["age"]
    (fun pv =>
      match pv with
      | some (Val.num q) => VOutcome.ok (Val.num q)
      | _ => VOutcome.invalid (Val.str "A valid integer is required."))

/-- C2 witness fixture: the spec's example payload
`{"name": "ok", "age": "not-a-number"}`. -/
def c2Entries : List (String × Val) :=
  [("name", Val.str "ok"), ("age", Val.str "not-a-number")]

/-- C10 witness fixture: a keyed field (`key = "g"`) whose validator returns
the primitive value it received. -/
def c10G : FieldM :=
  FieldM.mk "g" (some "g") ["g"] (fun pv => VOutcome.ok (pv.getD Val.vnone))

/-- C10 witness fixture: a keyless field named `"h"` whose validator returns
the primitive value it received (which the source takes from the stale
`primitive_value` local, not from any `"h"` slot of the payload). -/
def c10H : FieldM :=
  FieldM.mk "h" none ["h"] (fun pv => VOutcome.ok (pv.getD Val.vnone))

/-- C10/C2 fixture: a keyless field in first position, with a validator
that would always succeed. -/
def c10Keyless : FieldM :=
  FieldM.mk "kf" none ["kf"] (fun _ => VOutcome.ok (Val.num 1))

/-! ## Helper lemmas: concrete evaluation of the decimal model -/

theorem qLog10_eq (q : ℚ) (e0 : Int)
    (h : (natLog10 q.num.natAbs : Int) - (natLog10 q.den : Int) = e0)
    (hle : pow10 e0 ≤ |q|) : qLog10 q = e0 := by
  simp only [qLog10]
  rw [h, if_pos hle]

theorem qLog10_eq_pred (q : ℚ) (e0 : Int)
    (h : (natLog10 q.num.natAbs : Int) - (natLog10 q.den : Int) = e0)
    (hlt : ¬ pow10 e0 ≤ |q|) : qLog10 q = e0 - 1 := by
  simp only [qLog10]
  rw [h, if_neg hlt]

theorem rhe_eq_down (x : ℚ) (f : Int) (hf : ⌊x⌋ = f) (h : x - f < 1/2) :
    rhe x = f := by
  simp only [rhe]
  rw [hf, if_pos h]

theorem rhe_eq_up (x : ℚ) (f : Int) (hf : ⌊x⌋ = f) (h : 1/2 < x - f) :
    rhe x = f + 1 := by
  simp only [rhe]
  rw [hf, if_neg (not_lt.mpr (le_of_lt h)), if_pos h]

theorem roundSig_eq (p : Nat) (q : ℚ) (e r : Int)
    (hq : q ≠ 0) (he : qLog10 q = e)
    (hr : rhe (q * pow10 ((p : Int) - 1 - e)) = r) :
    roundSig p q = (r : ℚ) * pow10 (e + 1 - (p : Int)) := by
  simp only [roundSig]
  rw [if_neg hq, he, hr]

theorem multiply_forward (a k : ℚ) (p : Option Nat) :
    IntegerField.multiply a k false p
      = ((truncQ (roundSig (p.getD 28) (a * k)) : Int) : ℚ) := rfl

theorem multiply_reverse (a k : ℚ) (p : Option Nat) :
    IntegerField.multiply a k true p = roundSig (p.getD 28) (a / k) := rfl

/-! ## Helper lemmas: truncation towards zero -/

theorem truncQ_intCast (z : Int) : truncQ ((z : Int) : ℚ) = z := by
  by_cases h : (0 : ℚ) ≤ (z : ℚ)
  · simp only [truncQ, if_pos h, Int.floor_intCast]
  · simp only [truncQ, if_neg h, Int.ceil_intCast]

theorem truncQ_abs_le (q : ℚ) : |((truncQ q : Int) : ℚ)| ≤ |q| := by
  by_cases h : 0 ≤ q
  · have hf : (0 : ℚ) ≤ ((⌊q⌋ : Int) : ℚ) := by
      exact_mod_cast Int.floor_nonneg.mpr h
    simp only [truncQ, if_pos h]
    rw [abs_of_nonneg hf, abs_of_nonneg h]
    exact Int.floor_le q
  · have hq : q ≤ 0 := le_of_not_le h
    have hc : ((⌈q⌉ : Int) : ℚ) ≤ 0 := by
      exact_mod_cast Int.ceil_le.mpr (show q ≤ ((0 : Int) : ℚ) by exact_mod_cast hq)
    simp only [truncQ, if_neg h]
    rw [abs_of_nonpos hc, abs_of_nonpos hq]
    exact neg_le_neg (Int.le_ceil q)

theorem abs_lt_truncQ_add_one (q : ℚ) : |q| < |((truncQ q : Int) : ℚ)| + 1 := by
  by_cases h : 0 ≤ q
  · have hf : (0 : ℚ) ≤ ((⌊q⌋ : Int) : ℚ) := by
      exact_mod_cast Int.floor_nonneg.mpr h
    simp only [truncQ, if_pos h]
    rw [abs_of_nonneg hf, abs_of_nonneg h]
    exact Int.lt_floor_add_one q
  · have hq : q ≤ 0 := le_of_not_le h
    have hc : ((⌈q⌉ : Int) : ℚ) ≤ 0 := by
      exact_mod_cast Int.ceil_le.mpr (show q ≤ ((0 : Int) : ℚ) by exact_mod_cast hq)
    simp only [truncQ, if_neg h]
    rw [abs_of_nonpos hc, abs_of_nonpos hq]
    have := Int.ceil_lt_add_one q
    linarith
  
theorem truncQ_mul_self_nonneg (q : ℚ) : 0 ≤ ((truncQ q : Int) : ℚ) * q := by
  by_cases h : 0 ≤ q
  · have hf : (0 : ℚ) ≤ ((⌊q⌋ : Int) : ℚ) := by
      exact_mod_cast Int.floor_nonneg.mpr h
    simp only [truncQ, if_pos h]
    exact mul_nonneg hf h
  · have hq : q ≤ 0 := le_of_not_le h
    have hc : ((⌈q⌉ : Int) : ℚ) ≤ 0 := by
      exact_mod_cast Int.ceil_le.mpr (show q ≤ ((0 : Int) : ℚ) by exact_mod_cast hq)
    simp only [truncQ, if_neg h]
    have := mul_nonneg (neg_nonneg.mpr hc) (neg_nonneg.mpr hq)
    rwa [neg_mul_neg] at this

/-- C7 (confirmed): the offset operations invert each other exactly, with no
precision loss: `subtract` then `add` (forward) recovers `v`, `add` then
`subtract` (forward) recovers `v`, and running each operation forward then
with `reverse=True` recovers `v`, all as exact identities. -/
theorem C7_offset_inversion (v k : ℚ) :
    IntegerField.add (IntegerField.subtract v k false) k false = v ∧
    IntegerField.subtract (IntegerField.add v k false) k false = v ∧
    IntegerField.add (IntegerField.add v k false) k true = v ∧
    IntegerField.subtract (IntegerField.subtract v k false) k true = v := by
  refine ⟨?_, ?_, ?_, ?_⟩ <;>
    simp [IntegerField.add, IntegerField.subtract]

/-- C6 (confirmed): with a given precision `n`, the forward scale direction
is the truncation towards zero (never away — `|z| ≤ |P|`, `|P| < |z| + 1`,
matching signs) of the product rounded to `n` significant digits, so the
result is an integer obtained by truncating, not rounding; the reverse
direction is exactly the quotient rounded to `n` significant digits, with
no truncation applied. -/
theorem C6_scale_forward_reverse (v k : ℚ) (n : Nat) :
    (∃ z : Int, IntegerField.multiply v k false (some n) = (z : ℚ) ∧
      |(z : ℚ)| ≤ |roundSig n (v * k)| ∧
      |roundSig n (v * k)| < |(z : ℚ)| + 1 ∧
      0 ≤ (z : ℚ) * roundSig n (v * k)) ∧
    IntegerField.multiply v k true (some n) = roundSig n (v / k) := by
  constructor
  · exact ⟨truncQ (roundSig n (v * k)), rfl,
      truncQ_abs_le (roundSig n (v * k)),
      abs_lt_truncQ_add_one (roundSig n (v * k)),
      truncQ_mul_self_nonneg (roundSig n (v * k))⟩
  · rfl

/-- C5 (corrected): counterexample to the claim as stated.  With `k = 3` and
precision 3, the integer `v = 100` *is* producible by a prior forward
multiply (`multiply(33.4, 3, precision=3) = int(100.2) = 100`), yet
divide-then-multiply does not reproduce it:
`multiply(100, 3, reverse=True, precision=3) = 33.3` (the 3-significant-digit
rounding of 100/3), and `multiply(33.3, 3, precision=3) = int(99.9) = 99 ≠ 100`. -/
theorem C5_counterexample :
    IntegerField.multiply (167/5) 3 false (some 3) = 100 ∧
    IntegerField.multiply (IntegerField.multiply 100 3 true (some 3)) 3 false (some 3) = 99 ∧
    (99 : ℚ) ≠ 100 := by
  have e1 : qLog10 ((501 : ℚ)/5) = 2 := by
    apply qLog10_eq _ 2
    · norm_num [show natLog10 501 = 2 from by decide, show natLog10 5 = 0 from by decide]
    · rw [show |(501 : ℚ)/5| = 501/5 from abs_of_pos (by norm_num)]
      norm_num [pow10]
  have hr1 : rhe ((501 : ℚ)/5 * pow10 (((3 : Nat) : Int) - 1 - 2)) = 100 := by
    apply rhe_eq_down
    · norm_num [pow10]
    · norm_num [pow10]
  have r1 : roundSig 3 ((501 : ℚ)/5) = 100 := by
    rw [roundSig_eq 3 ((501 : ℚ)/5) 2 100 (by norm_num) e1 hr1]
    norm_num [pow10]
  have t1 : truncQ (100 : ℚ) = 100 := by
    simp only [truncQ, if_pos (show (0 : ℚ) ≤ 100 from by norm_num)]
    norm_num
  have h1 : IntegerField.multiply (167/5) 3 false (some 3) = 100 := by
    rw [multiply_forward]
    simp only [Option.getD_some]
    rw [show (167 : ℚ)/5 * 3 = 501/5 from by norm_num, r1, t1]
    norm_num
  have e2 : qLog10 ((100 : ℚ)/3) = 1 := by
    apply qLog10_eq_pred _ 2
    · norm_num [show natLog10 100 = 2 from by decide, show natLog10 3 = 0 from by decide]
    · rw [show |(100 : ℚ)/3| = 100/3 from abs_of_pos (by norm_num)]
      norm_num [pow10]
  have hr2 : rhe ((100 : ℚ)/3 * pow10 (((3 : Nat) : Int) - 1 - 1)) = 333 := by
    apply rhe_eq_down
    · norm_num [pow10]
    · norm_num [pow10]
  have r2 : roundSig 3 ((100 : ℚ)/3) = 333/10 := by
    rw [roundSig_eq 3 ((100 : ℚ)/3) 1 333 (by norm_num) e2 hr2]
    norm_num [pow10]
  have h2 : IntegerField.multiply 100 3 true (some 3) = 333/10 := by
    rw [multiply_reverse]
    simp only [Option.getD_some]
    exact r2
  have e3 : qLog10 ((999 : ℚ)/10) = 1 := by
    apply qLog10_eq _ 1
    · norm_num [show natLog10 999 = 2 from by decide, show natLog10 10 = 1 from by decide]
    · rw [show |(999 : ℚ)/10| = 999/10 from abs_of_pos (by norm_num)]
      norm_num [pow10]
  have hr3 : rhe ((999 : ℚ)/10 * pow10 (((3 : Nat) : Int) - 1 - 1)) = 999 := by
    apply rhe_eq_down
    · norm_num [pow10]
    · norm_num [pow10]
  have r3 : roundSig 3 ((999 : ℚ)/10) = 999/10 := by
    rw [roundSig_eq 3 ((999 : ℚ)/10) 1 999 (by norm_num) e3 hr3]
    norm_num [pow10]
  have t3 : truncQ ((999 : ℚ)/10) = 99 := by
    simp only [truncQ, if_pos (show (0 : ℚ) ≤ 999/10 from by norm_num)]
    norm_num
  have h3 : IntegerField.multiply (333/10) 3 false (some 3) = 99 := by
    rw [multiply_forward]
    simp only [Option.getD_some]
    rw [show (333 : ℚ)/10 * 3 = 999/10 from by norm_num, r3, t3]
    norm_num
  exact ⟨h1, by rw [h2, h3], by norm_num⟩

/-- C5 (corrected): amended claim.  The divide-then-multiply round trip
`multiply(multiply(v, k, reverse=True, p), k, p) = v` holds exactly when the
decimal division `v / k` incurs no rounding at the context precision and `v`
itself is representable at that precision (producibility of `v` by a prior
forward multiply is not by itself sufficient, as the counterexample shows). -/
theorem C5_amended (v : Int) (k : ℚ) (p : Option Nat) (hk : k ≠ 0)
    (h1 : roundSig (p.getD 28) ((v : ℚ) / k) = (v : ℚ) / k)
    (h2 : roundSig (p.getD 28) ((v : ℚ)) = (v : ℚ)) :
    IntegerField.multiply (IntegerField.multiply (v : ℚ) k true p) k false p = (v : ℚ) := by
  rw [multiply_reverse, h1, multiply_forward, div_mul_cancel₀ _ hk, h2, truncQ_intCast]

/-- C5 witness: with `v = 120`, `k = 10`, precision 3, both exactness
hypotheses hold and the divide-then-multiply round trip reproduces `v`. -/
theorem C5_amended_witness :
    roundSig ((some 3 : Option Nat).getD 28) (((120 : Int) : ℚ) / 10) = ((120 : Int) : ℚ) / 10 ∧
    roundSig ((some 3 : Option Nat).getD 28) ((120 : Int) : ℚ) = ((120 : Int) : ℚ) ∧
    IntegerField.multiply (IntegerField.multiply ((120 : Int) : ℚ) 10 true (some 3)) 10
      false (some 3) = ((120 : Int) : ℚ) := by
  have e1 : qLog10 (12 : ℚ) = 1 := by
    apply qLog10_eq _ 1
    · norm_num [show natLog10 12 = 1 from by decide, show natLog10 1 = 0 from by decide]
    · rw [show |(12 : ℚ)| = 12 from abs_of_pos (by norm_num)]
      norm_num [pow10]
  have hr1 : rhe ((12 : ℚ) * pow10 (((3 : Nat) : Int) - 1 - 1)) = 120 := by
    apply rhe_eq_down
    · norm_num [pow10]
    · norm_num [pow10]
  have r1 : roundSig 3 (12 : ℚ) = 12 := by
    rw [roundSig_eq 3 (12 : ℚ) 1 120 (by norm_num) e1 hr1]
    norm_num [pow10]
  have e2 : qLog10 (120 : ℚ) = 2 := by
    apply qLog10_eq _ 2
    · norm_num [show natLog10 120 = 2 from by decide, show natLog10 1 = 0 from by decide]
    · rw [show |(120 : ℚ)| = 120 from abs_of_pos (by norm_num)]
      norm_num [pow10]
  have hr2 : rhe ((120 : ℚ) * pow10 (((3 : Nat) : Int) - 1 - 2)) = 120 := by
    apply rhe_eq_down
    · norm_num [pow10]
    · norm_num [pow10]
  have r2 : roundSig 3 (120 : ℚ) = 120 := by
    rw [roundSig_eq 3 (120 : ℚ) 2 120 (by norm_num) e2 hr2]
    norm_num [pow10]
  have hd1 : roundSig ((some 3 : Option Nat).getD 28) (((120 : Int) : ℚ) / 10)
      = ((120 : Int) : ℚ) / 10 := by
    simp only [Option.getD_some]
    rw [show ((120 : Int) : ℚ) / 10 = 12 from by norm_num]
    exact r1
  have hd2 : roundSig ((some 3 : Option Nat).getD 28) ((120 : Int) : ℚ) = ((120 : Int) : ℚ) := by
    simp only [Option.getD_some]
    rw [show ((120 : Int) : ℚ) = 120 from by norm_num]
    exact r2
  exact ⟨hd1, hd2, C5_amended 120 10 (some 3) (by norm_num) hd1 hd2⟩

/-! ## Helper lemmas for the export pipeline (C1) -/

theorem applyStep_reverse_eq_inv (s : TStep) (r : ℚ) :
    applyStep s r true none = invStepApply s r := by
  cases s with
  | mk k p => cases k <;> rfl

theorem foldl_applyStep_reverse (l : List TStep) (b : ℚ) :
    l.foldl (fun r s => applyStep s r true none) b
      = l.foldl (fun r s => invStepApply s r) b := by
  simp only [applyStep_reverse_eq_inv]

/-- C1 (corrected): counterexample to the claim as stated.  For the pipeline
`[multiply 10, add 7]` (declared order) on base value 100, the source's
export runs the inverses in *declared* order — `100 / 10 = 10`, then
`10 - 7 = 3` — while the claimed reverse-declared-order inversion gives
`(100 - 7) / 10 = 9.3`.  The two disagree. -/
theorem C1_counterexample :
    to_representation c1Field 100 = 3 ∧
    exportReverseOrderInverted c1Field 100 = 93/10 ∧
    to_representation c1Field 100 ≠ exportReverseOrderInverted c1Field 100 := by
  have e1 : qLog10 (10 : ℚ) = 1 := by
    apply qLog10_eq _ 1
    · norm_num [show natLog10 10 = 1 from by decide, show natLog10 1 = 0 from by decide]
    · rw [show |(10 : ℚ)| = 10 from abs_of_pos (by norm_num)]
      norm_num [pow10]
  have hr1 : rhe ((10 : ℚ) * pow10 (((28 : Nat) : Int) - 1 - 1)) = 10 ^ 27 := by
    apply rhe_eq_down
    · norm_num [pow10]
    · norm_num [pow10]
  have r1 : roundSig 28 (10 : ℚ) = 10 := by
    rw [roundSig_eq 28 (10 : ℚ) 1 (10 ^ 27) (by norm_num) e1 hr1]
    norm_num [pow10]
  have e2 : qLog10 ((93 : ℚ)/10) = 0 := by
    apply qLog10_eq _ 0
    · norm_num [show natLog10 93 = 1 from by decide, show natLog10 10 = 1 from by decide]
    · rw [show |(93 : ℚ)/10| = 93/10 from abs_of_pos (by norm_num)]
      norm_num [pow10]
  have hr2 : rhe ((93 : ℚ)/10 * pow10 (((28 : Nat) : Int) - 1 - 0)) = 93 * 10 ^ 26 := by
    apply rhe_eq_down
    · norm_num [pow10]
    · norm_num [pow10]
  have r2 : roundSig 28 ((93 : ℚ)/10) = 93/10 := by
    rw [roundSig_eq 28 ((93 : ℚ)/10) 0 (93 * 10 ^ 26) (by norm_num) e2 hr2]
    norm_num [pow10]
  have hA : to_representation c1Field 100 = 3 := by
    show IntegerField.add (IntegerField.multiply 100 10 true none) 7 true = 3
    rw [multiply_reverse]
    simp only [Option.getD_none]
    rw [show (100 : ℚ)/10 = 10 from by norm_num, r1]
    simp only [IntegerField.add, if_pos]
    norm_num
  have hB : exportReverseOrderInverted c1Field 100 = 93/10 := by
    show IntegerField.multiply (IntegerField.add 100 7 true) 10 true none = 93/10
    rw [show IntegerField.add 100 7 true = 93 from by
      simp only [IntegerField.add, if_pos]; norm_num]
    rw [multiply_reverse]
    simp only [Option.getD_none]
    exact r2
  exact ⟨hA, hB, by rw [hA, hB]; norm_num⟩

/-- C1 (corrected): amended claim.  For a field with a non-empty pipeline,
no export override, and no formatter, export applies each pipeline step's
inverse in *declared* order: for `[s1, ..., sn]` the export result is
`inv(sn)(...(inv(s1)(base(v)))...)`. -/
theorem C1_amended (f : ReprField) (base : ℚ)
    (h1 : f.export_override = none) (h2 : f.export_formatter = none) :
    to_representation f base = exportDeclaredOrderInverted f base := by
  obtain ⟨ms, eo, ef, pr⟩ := f
  simp only at h1 h2
  subst h1
  subst h2
  show ms.foldl (fun r s => applyStep s r true none) base
      = ms.foldl (fun r s => invStepApply s r) base
  exact foldl_applyStep_reverse ms base

/-- C1 witness: the amended statement instantiated on the concrete pipeline
`[multiply 10, add 7]` at base value 100, where it evaluates to 3. -/
theorem C1_amended_witness :
    c1Field.export_override = none ∧ c1Field.export_formatter = none ∧
    to_representation c1Field 100 = exportDeclaredOrderInverted c1Field 100 :=
  ⟨rfl, rfl, C1_amended c1Field 100 rfl rfl⟩

/-- C8 (code_bug): the constructor rejects an export override given as an
ordered sequence of `(transform, operand)` pairs — `callable(...)` is false
for a sequence, so `__init__` raises `TypeError("export must be a
callable")`, even though `to_representation` consumes `export_override` by
iterating `(transform_override, param)` pairs and the constructor's own
comment shows `export=(IntegerField.divide, 1000)`. -/
theorem C8_export_sequence_rejected :
    initExportCheck (some (ExportArg.pairs [TStep.mk TKind.multiply 1000])) =
      Except.error "export must be a callable" := rfl

/-! ## Helper lemmas: dot-path walks (C4) -/

theorem walkField_of_lookupPath :
    ∀ (ks : List String) (v x : Val), lookupPath ks v = some x →
      walkField ks v = Except.ok x := by
  intro ks
  induction ks with
  | nil =>
      intro v x h
      simp only [lookupPath] at h
      cases h
      rfl
  | cons k ks ih =>
      intro v x h
      cases v with
      | dict es =>
          cases hg : dictGet es k with
          | some w =>
              simp only [lookupPath, hg] at h
              simp only [walkField, hg, Option.getD_some]
              exact ih w x h
          | none =>
              simp only [lookupPath, hg] at h
              exact Option.noConfusion h
      | vnone => simp only [lookupPath] at h; exact Option.noConfusion h
      | num q => simp only [lookupPath] at h; exact Option.noConfusion h
      | str s => simp only [lookupPath] at h; exact Option.noConfusion h
      | list l => simp only [lookupPath] at h; exact Option.noConfusion h

theorem walkRecord_of_lookupPath :
    ∀ (ks : List String) (v x : Val), lookupPath ks v = some x →
      walkRecord ks v = Except.ok x := by
  intro ks
  induction ks with
  | nil =>
      intro v x h
      simp only [lookupPath] at h
      cases h
      rfl
  | cons k ks ih =>
      intro v x h
      cases v with
      | dict es =>
          cases hg : dictGet es k with
          | some w =>
              simp only [lookupPath, hg] at h
              simp only [walkRecord, hg, Option.getD_some]
              exact ih w x h
          | none =>
              simp only [lookupPath, hg] at h
              exact Option.noConfusion h
      | vnone => simp only [lookupPath] at h; exact Option.noConfusion h
      | num q => simp only [lookupPath] at h; exact Option.noConfusion h
      | str s => simp only [lookupPath] at h; exact Option.noConfusion h
      | list l => simp only [lookupPath] at h; exact Option.noConfusion h

theorem walkRecord_emptyDict (ks : List String) :
    walkRecord ks (Val.dict []) = Except.ok (Val.dict []) := by
  induction ks with
  | nil => rfl
  | cons k ks ih =>
      simp only [walkRecord, dictGet, Option.getD_none]
      exact ih

theorem walkRecord_of_missingAt :
    ∀ (ks : List String) (v : Val), missingAt ks v = true →
      walkRecord ks v = Except.ok (Val.dict []) := by
  intro ks
  induction ks with
  | nil => intro v h; simp only [missingAt] at h; exact Bool.noConfusion h
  | cons k ks ih =>
      intro v h
      cases v with
      | dict es =>
          cases hg : dictGet es k with
          | some w =>
              simp only [missingAt, hg] at h
              simp only [walkRecord, hg, Option.getD_some]
              exact ih w h
          | none =>
              simp only [walkRecord, hg, Option.getD_none]
              exact walkRecord_emptyDict ks
      | vnone => simp only [missingAt] at h; exact Bool.noConfusion h
      | num q => simp only [missingAt] at h; exact Bool.noConfusion h
      | str s => simp only [missingAt] at h; exact Bool.noConfusion h
      | list l => simp only [missingAt] at h; exact Bool.noConfusion h

theorem walkField_append_ok (ks ks' : List String) (v w : Val)
    (h : walkField ks v = Except.ok w) :
    walkField (ks ++ ks') v = walkField ks' w := by
  induction ks generalizing v with
  | nil =>
      simp only [walkField] at h
      cases h
      rfl
  | cons k ks ih =>
      cases v with
      | dict es =>
          simp only [walkField] at h ⊢
          exact ih _ h
      | vnone => simp only [walkField] at h; exact Except.noConfusion h
      | num q => simp only [walkField] at h; exact Except.noConfusion h
      | str s => simp only [walkField] at h; exact Except.noConfusion h
      | list l => simp only [walkField] at h; exact Except.noConfusion h

theorem recordResolve_of_walk_nondict (n : String) (ks : List String) (v x : Val)
    (hw : walkRecord ks v = Except.ok x) (hx : isDict x = false) :
    recordResolve n ks v = Except.ok (some x) := by
  simp only [recordResolve, hw, hx]
  rw [if_neg (show ¬ (false = true) from by simp)]
  show Except.ok (dictGet [(n, x)] n) = Except.ok (some x)
  simp [dictGet]

theorem recordResolve_of_missingAt (n : String) (ks : List String) (v : Val)
    (h : missingAt ks v = true) : recordResolve n ks v = Except.ok none := by
  have hw := walkRecord_of_missingAt ks v h
  simp only [recordResolve, hw]
  rw [if_pos (show isDict (Val.dict []) = true from rfl)]
  rfl

/-- C4 (corrected): counterexample to the claim as stated.  On the spec's
own example — key `"a.x.c"` over `{"a": {"b": {"c": 5}}}` — the field-level
resolver (`BaseSerializableField.to_internal_value`) raises an
`AttributeError` (`result.get("x")` yields `None`, then `None.get("c")` is
attempted) instead of yielding an absent value. -/
theorem C4_counterexample :
    walkField (splitDots "a.x.c") c4Payload = Except.error () := rfl

/-- C4 (corrected): amended claim.  (1) When every segment is present, the
field-level walk yields the value at the path; (2) so does the record-level
resolver, for a non-mapping value there; (3) when a segment is missing, the
record-level resolver (whose lookups default to `{}`) yields absent and
never an error; the field-level walk yields absent (`None`) only when the
missing segment is the *last* one (4), and raises an `AttributeError` when
a non-final segment is missing (5). -/
theorem C4_amended :
    (∀ (ks : List String) (v x : Val), lookupPath ks v = some x →
      walkField ks v = Except.ok x) ∧
    (∀ (n : String) (ks : List String) (v x : Val), lookupPath ks v = some x →
      isDict x = false → recordResolve n ks v = Except.ok (some x)) ∧
    (∀ (n : String) (ks : List String) (v : Val), missingAt ks v = true →
      recordResolve n ks v = Except.ok none) ∧
    (∀ (ks : List String) (k : String) (v : Val) (es : List (String × Val)),
      lookupPath ks v = some (Val.dict es) → dictGet es k = none →
      walkField (ks ++ [k]) v = Except.ok Val.vnone) ∧
    (∀ (ks : List String) (k k2 : String) (rest : List String) (v : Val)
      (es : List (String × Val)),
      lookupPath ks v = some (Val.dict es) → dictGet es k = none →
      walkField (ks ++ k :: k2 :: rest) v = Except.error ()) := by
  refine ⟨walkField_of_lookupPath, ?_, ?_, ?_, ?_⟩
  · intro n ks v x h hx
    exact recordResolve_of_walk_nondict n ks v x (walkRecord_of_lookupPath ks v x h) hx
  · intro n ks v h
    exact recordResolve_of_missingAt n ks v h
  · intro ks k v es h hg
    have hw := walkField_of_lookupPath ks v (Val.dict es) h
    rw [walkField_append_ok ks [k] v (Val.dict es) hw]
    simp only [walkField, hg, Option.getD_none]
  · intro ks k k2 rest v es h hg
    have hw := walkField_of_lookupPath ks v (Val.dict es) h
    rw [walkField_append_ok ks (k :: k2 :: rest) v (Val.dict es) hw]
    simp only [walkField, hg, Option.getD_none]

/-- C4 witness: on the spec's example payload, `"a.b.c"` resolves to 5
through both resolvers, and `"a.x.c"` resolves to absent (never an error)
through the record-level resolver. -/
theorem C4_amended_witness :
    walkField (splitDots "a.b.c") c4Payload = Except.ok (Val.num 5) ∧
    recordResolve "amount" (splitDots "a.b.c") c4Payload = Except.ok (some (Val.num 5)) ∧
    recordResolve "amount" (splitDots "a.x.c") c4Payload = Except.ok none :=
  ⟨C4_amended.1 (splitDots "a.b.c") c4Payload (Val.num 5) rfl,
   C4_amended.2.1 "amount" (splitDots "a.b.c") c4Payload (Val.num 5) rfl rfl,
   C4_amended.2.2.1 "amount" (splitDots "a.x.c") c4Payload rfl⟩

/-- C9 (confirmed): top-level shape errors are immediate and unconditional.
A non-mapping record input fails at record level, and a non-sequence (or
empty, with `allowEmpty` false) list input fails at list level — in every
case with a shape-level error that does not depend on the fields or the
child binding, so no per-field or per-item errors are collected. -/
theorem C9_shape_errors :
    (∀ (vm : String → Option (Val → VOutcome)) (fields : List FieldM) (d : Val),
      isDict d = false →
      BindableModelSerializer.to_internal_value vm fields d =
        Except.error RecFail.notAMapping) ∧
    (∀ (ae : Bool) (child : Val → Except Val Val) (d : Val), isList d = false →
      BindableListSerializer.to_internal_value ae child d =
        Except.error ListFail.notAList) ∧
    (∀ (child : Val → Except Val Val),
      BindableListSerializer.to_internal_value false child (Val.list []) =
        Except.error ListFail.emptyNotAllowed) := by
  refine ⟨?_, ?_, ?_⟩
  · intro vm fields d h
    cases d with
    | dict es => simp only [isDict] at h; exact Bool.noConfusion h
    | vnone => rfl
    | num q => rfl
    | str s => rfl
    | list l => rfl
  · intro ae child d h
    cases d with
    | list l => simp only [isList] at h; exact Bool.noConfusion h
    | vnone => rfl
    | num q => rfl
    | str s => rfl
    | dict es => rfl
  · intro child
    rfl

/-- C9 witness: a number input to the record binding fails with the
record-level shape error, a number input to the list binding fails with the
list-level shape error, and an empty list with `allow_empty = False` fails
with the list-level empty error. -/
theorem C9_witness :
    BindableModelSerializer.to_internal_value (fun _ => none) [] (Val.num 5) =
      Except.error RecFail.notAMapping ∧
    BindableListSerializer.to_internal_value true (fun v => Except.ok v) (Val.num 5) =
      Except.error ListFail.notAList ∧
    BindableListSerializer.to_internal_value false (fun v => Except.ok v) (Val.list []) =
      Except.error ListFail.emptyNotAllowed :=
  ⟨C9_shape_errors.1 (fun _ => none) [] (Val.num 5) rfl,
   C9_shape_errors.2.1 true (fun v => Except.ok v) (Val.num 5) rfl,
   C9_shape_errors.2.2 (fun v => Except.ok v)⟩

/-! ## Helper lemmas: the list item loop (C3) -/

theorem listLoop_eq (child : Val → Except Val Val) :
    ∀ items : List Val,
      listLoop child items = (itemSuccesses child items, itemSlots child items) := by
  intro items
  induction items with
  | nil => rfl
  | cons it rest ih =>
      cases hc : child it with
      | error d =>
          simp only [listLoop, ih, hc, itemSuccesses, itemSlots, List.filterMap_cons,
            List.map_cons, Except.toOption]
      | ok v =>
          simp only [listLoop, ih, hc, itemSuccesses, itemSlots, List.filterMap_cons,
            List.map_cons, Except.toOption]

/-- C3 (corrected): counterexample to the claim as stated.  For the empty
input list under `allow_empty = False` no slot is non-empty, so the claim
requires the call to return the (empty) success sequence; the code instead
fails with the list-level `empty` error before any item processing. -/
theorem C3_counterexample :
    BindableListSerializer.to_internal_value false (fun v => Except.ok v) (Val.list []) =
      Except.error ListFail.emptyNotAllowed ∧
    BindableListSerializer.to_internal_value false (fun v => Except.ok v) (Val.list []) ≠
      Except.ok (itemSuccesses (fun v => Except.ok v) []) :=
  ⟨rfl, fun hcontra => Except.noConfusion hcontra⟩

/-- C3 (corrected): amended claim.  Unless the input list is empty while
`allowEmpty` is false (a list-level failure, see C9), import processes items
in index order: a failed item contributes its failure detail to the error
sequence and nothing to the success sequence, a successful item contributes
its converted value to the success sequence and an empty placeholder to the
error sequence; the call fails with the full per-index error sequence iff
some slot is non-empty (Python-truthy), else returns the success sequence. -/
theorem C3_amended (allow_empty : Bool) (child : Val → Except Val Val)
    (items : List Val) (h : allow_empty = true ∨ items ≠ []) :
    BindableListSerializer.to_internal_value allow_empty child (Val.list items) =
      (if (itemSlots child items).any valTruthy
        then Except.error (ListFail.itemErrors (itemSlots child items))
        else Except.ok (itemSuccesses child items)) := by
  have hguard : (items.isEmpty && !allow_empty) = false := by
    rcases h with h | h
    · rw [h]
      simp
    · cases items with
      | nil => exact absurd rfl h
      | cons a t => simp
  simp only [BindableListSerializer.to_internal_value, hguard, listLoop_eq child items,
    Bool.false_eq_true, if_false]

/-- C3 witness: on `[1, "x", 3]` with a child that rejects strings, the call
fails with the per-index error sequence `[{}, {"age": "bad"}, {}]` — indices
0 and 2 carry empty placeholders, the failed index carries its detail. -/
theorem C3_amended_witness :
    BindableListSerializer.to_internal_value false c3Child
      (Val.list [Val.num 1, Val.str "x", Val.num 3]) =
      Except.error (ListFail.itemErrors
        [Val.dict [], Val.dict [("age", Val.str "bad")], Val.dict []]) := by
  have h := C3_amended false c3Child [Val.num 1, Val.str "x", Val.num 3]
    (Or.inr (fun hc => List.noConfusion hc))
  rw [h]
  rfl

/-! ## Helper lemmas: the record field loop (C2, C10) -/

theorem applyPv_ok (vm : String → Option (Val → VOutcome)) (f : FieldM) (pv : Option Val)
    (st : RecState) (a : String) (ha : f.sourceAttrs = [a])
    (r0 : List (String × Val)) (hr : st.ret = Val.dict r0) :
    applyPv vm f pv st = Except.ok (RecState.mk
      (match (fieldOutcome vm f pv).2 with
       | some v => Val.dict (dictSet r0 a v)
       | none => st.ret)
      (match (fieldOutcome vm f pv).1 with
       | some d => dictSet st.errors f.fieldName d
       | none => st.errors)) := by
  obtain ⟨ret0, errs0⟩ := st
  simp only at hr
  subst hr
  cases hv : f.validate pv with
  | invalid d => simp only [applyPv, fieldOutcome, hv]
  | djangoInvalid msgs => simp only [applyPv, fieldOutcome, hv]
  | skip => simp only [applyPv, fieldOutcome, hv]
  | ok v =>
      cases hm : vm f.fieldName with
      | none => simp only [applyPv, fieldOutcome, hv, hm, ha, setValue]
      | some m =>
          cases hmv : m v with
          | ok v' => simp only [applyPv, fieldOutcome, hv, hm, hmv, ha, setValue]
          | invalid d => simp only [applyPv, fieldOutcome, hv, hm, hmv]
          | djangoInvalid msgs => simp only [applyPv, fieldOutcome, hv, hm, hmv]
          | skip => simp only [applyPv, fieldOutcome, hv, hm, hmv]

theorem recordLoop_eq_spec (vm : String → Option (Val → VOutcome))
    (entries : List (String × Val)) :
    ∀ (fields : List FieldM) (c : Option (Option Val))
      (l : List (FieldM × Option Val)),
      pvPairs entries fields c = Except.ok l →
      (∀ f ∈ fields, ∃ a, f.sourceAttrs = [a]) →
      ∀ (st : RecState) (r0 : List (String × Val)), st.ret = Val.dict r0 →
      recordLoop vm entries fields st c = Except.ok (RecState.mk
        (l.foldl (fun r p =>
          match (fieldOutcome vm p.1 p.2).2 with
          | some v =>
              match setValue r p.1.sourceAttrs v with
              | Except.ok r' => r'
              | Except.error _ => r
          | none => r) st.ret)
        (l.foldl (fun e p =>
          match (fieldOutcome vm p.1 p.2).1 with
          | some d => dictSet e p.1.fieldName d
          | none => e) st.errors)) := by
  intro fields
  induction fields with
  | nil =>
      intro c l hl hsrc st r0 hr
      simp only [pvPairs] at hl
      cases hl
      rfl
  | cons f fs ih =>
      intro c l hl hsrc st r0 hr
      obtain ⟨a, ha⟩ := hsrc f (List.mem_cons_self f fs)
      have hsrc' : ∀ g ∈ fs, ∃ b, g.sourceAttrs = [b] :=
        fun g hg => hsrc g (List.mem_cons_of_mem f hg)
      have hstep : ∀ (pv : Option Val) (l' : List (FieldM × Option Val)),
          pvPairs entries fs (some pv) = Except.ok l' →
          l = (f, pv) :: l' →
          (match applyPv vm f pv st with
           | Except.error c => Except.error c
           | Except.ok st' => recordLoop vm entries fs st' (some pv)) =
            Except.ok (RecState.mk
              (l.foldl (fun r p =>
                match (fieldOutcome vm p.1 p.2).2 with
                | some v =>
                    match setValue r p.1.sourceAttrs v with
                    | Except.ok r' => r'
                    | Except.error _ => r
                | none => r) st.ret)
              (l.foldl (fun e p =>
                match (fieldOutcome vm p.1 p.2).1 with
                | some d => dictSet e p.1.fieldName d
                | none => e) st.errors)) := by
        intro pv l' hl' hcons
        subst hcons
        rw [applyPv_ok vm f pv st a ha r0 hr]
        simp only [List.foldl_cons]
        cases ho : (fieldOutcome vm f pv).2 with
        | some v =>
            rw [ih (some pv) l' hl' hsrc'
              (RecState.mk (Val.dict (dictSet r0 a v))
                (match (fieldOutcome vm f pv).1 with
                 | some d => dictSet st.errors f.fieldName d
                 | none => st.errors))
              (dictSet r0 a v) rfl]
            simp only [ho, hr, ha, setValue]
        | none =>
            rw [ih (some pv) l' hl' hsrc'
              (RecState.mk st.ret
                (match (fieldOutcome vm f pv).1 with
                 | some d => dictSet st.errors f.fieldName d
                 | none => st.errors))
              r0 hr]
      cases hk : f.key with
      | some k =>
          cases hres : resolveKeyed f k entries with
          | error e =>
              simp only [pvPairs, hk, hres] at hl
              exact Except.noConfusion hl
          | ok pv =>
              cases hl' : pvPairs entries fs (some pv) with
              | error e =>
                  simp only [pvPairs, hk, hres, hl'] at hl
                  exact Except.noConfusion hl
              | ok l' =>
                  simp only [pvPairs, hk, hres, hl'] at hl
                  injection hl with hl
                  simp only [recordLoop, hk, hres]
                  exact hstep pv l' hl' hl.symm
      | none =>
          cases c with
          | none =>
              simp only [pvPairs, hk] at hl
              exact Except.noConfusion hl
          | some pv =>
              cases hl' : pvPairs entries fs (some pv) with
              | error e =>
                  simp only [pvPairs, hk, hl'] at hl
                  exact Except.noConfusion hl
              | ok l' =>
                  simp only [pvPairs, hk, hl'] at hl
                  injection hl with hl
                  simp only [recordLoop, hk]
                  exact hstep pv l' hl' hl.symm

theorem dictSet_ne_nil (l : List (String × Val)) (k : String) (v : Val) :
    dictSet l k v ≠ [] := by
  cases l with
  | nil => simp [dictSet]
  | cons p rest =>
      simp only [dictSet]
      split <;> simp

theorem errsFold_eq_nil_iff (vm : String → Option (Val → VOutcome)) :
    ∀ (l : List (FieldM × Option Val)) (e0 : List (String × Val)),
      (l.foldl (fun e p =>
        match (fieldOutcome vm p.1 p.2).1 with
        | some d => dictSet e p.1.fieldName d
        | none => e) e0 = []
      ↔ e0 = [] ∧ ∀ p ∈ l, (fieldOutcome vm p.1 p.2).1 = none) := by
  intro l
  induction l with
  | nil => intro e0; simp
  | cons p t ih =>
      intro e0
      rw [List.foldl_cons]
      cases ho : (fieldOutcome vm p.1 p.2).1 with
      | none =>
          rw [ih]
          simp [ho]
      | some d =>
          rw [ih]
          constructor
          · intro hc
            exact absurd hc.1 (dictSet_ne_nil e0 p.1.fieldName d)
          · intro hc
            have := hc.2 p (List.mem_cons_self p t)
            rw [ho] at this
            exact Option.noConfusion this

/-- C2 (corrected): counterexample to the claim as stated.  A record binding
whose first writable field has no external key crashes on any mapping input:
the Python local `primitive_value` is referenced before assignment, raising
an uncaught `UnboundLocalError` — not a per-field validation failure, and
not the assembled mapping the claim requires here (the field's validator
always succeeds, so the claim demands `{"f": 1}`). -/
theorem C2_counterexample :
    BindableModelSerializer.to_internal_value (fun _ => none)
      [FieldM.mk "f" none ["f"] (fun _ => VOutcome.ok (Val.num 1))] (Val.dict []) =
      Except.error (RecFail.crash CrashKind.unboundLocal) ∧
    BindableModelSerializer.to_internal_value (fun _ => none)
      [FieldM.mk "f" none ["f"] (fun _ => VOutcome.ok (Val.num 1))] (Val.dict []) ≠
      Except.ok (Val.dict [("f", Val.num 1)]) :=
  ⟨rfl, fun hcontra => Except.noConfusion hcontra⟩

/-- C2 (corrected): amended claim.  Provided the per-field primitive
resolution never raises (`pvPairs` succeeds — in particular the first
writable field has an external key and no keyed field's dot-path walk meets
a non-mapping intermediate) and each field's internal destination is a
single attribute, import attempts every writable field in declaration
order, recording each field's failure under its field name in the error map
and continuing; the call fails with the accumulated per-field error map iff
at least one field failed, and otherwise returns the assembled internal
mapping. -/
theorem C2_amended (vm : String → Option (Val → VOutcome)) (fields : List FieldM)
    (entries : List (String × Val)) (l : List (FieldM × Option Val))
    (hl : pvPairs entries fields none = Except.ok l)
    (hsrc : ∀ f ∈ fields, ∃ a, f.sourceAttrs = [a]) :
    (BindableModelSerializer.to_internal_value vm fields (Val.dict entries) =
      if (errsOf vm l).isEmpty then Except.ok (retOf vm l)
      else Except.error (RecFail.fieldErrors (errsOf vm l))) ∧
    (errsOf vm l = [] ↔ ∀ p ∈ l, (fieldOutcome vm p.1 p.2).1 = none) := by
  have hloop := recordLoop_eq_spec vm entries fields none l hl hsrc
    (RecState.mk (Val.dict []) []) [] rfl
  constructor
  · simp only [BindableModelSerializer.to_internal_value, hloop]
    rfl
  · have := errsFold_eq_nil_iff vm l []
    simpa [errsOf] using this

/-- C2 witness: on the spec's example `{"name": "ok", "age":
"not-a-number"}` with a text field `name` and an integer field `age`, both
fields are attempted (both appear in the resolved pair list), only `age`
fails, and the call fails with exactly `{"age": <detail>}`. -/
theorem C2_amended_witness :
    pvPairs c2Entries [c2NameField, c2AgeField] none =
      Except.ok [(c2NameField, some (Val.str "ok")),
                 (c2AgeField, some (Val.str "not-a-number"))] ∧
    (∀ f ∈ [c2NameField, c2AgeField], ∃ a, FieldM.sourceAttrs f = [a]) ∧
    BindableModelSerializer.to_internal_value (fun _ => none)
      [c2NameField, c2AgeField] (Val.dict c2Entries) =
      Except.error (RecFail.fieldErrors
        [("age", Val.str "A valid integer is required.")]) := by
  have hl : pvPairs c2Entries [c2NameField, c2AgeField] none =
      Except.ok [(c2NameField, some (Val.str "ok")),
                 (c2AgeField, some (Val.str "not-a-number"))] := rfl
  have hsrc : ∀ f ∈ [c2NameField, c2AgeField], ∃ a, FieldM.sourceAttrs f = [a] := by
    intro f hf
    rcases List.mem_cons.mp hf with hf1 | hf2
    · exact ⟨"name", by rw [hf1]; rfl⟩
    · rcases List.mem_cons.mp hf2 with hf3 | hf4
      · exact ⟨"age", by rw [hf3]; rfl⟩
      · exact absurd hf4 (List.not_mem_nil f)
  have h := (C2_amended (fun _ => none) [c2NameField, c2AgeField] c2Entries
    [(c2NameField, some (Val.str "ok")), (c2AgeField, some (Val.str "not-a-number"))]
    hl hsrc).1
  refine ⟨hl, hsrc, ?_⟩
  rw [h]
  rfl

theorem foldl_applyPv_error (vm : String → Option (Val → VOutcome)) (pvg : Option Val) :
    ∀ (hs : List FieldM) (e : CrashKind),
      hs.foldl (fun acc h =>
        match acc with
        | Except.ok s => applyPv vm h pvg s
        | Except.error e' => Except.error e') (Except.error e) = Except.error e := by
  intro hs
  induction hs with
  | nil => intro e; rfl
  | cons h t ih => intro e; rw [List.foldl_cons]; exact ih e

theorem recordLoop_keyless (vm : String → Option (Val → VOutcome))
    (entries : List (String × Val)) :
    ∀ (hs : List FieldM) (pv : Option Val) (st : RecState),
      (∀ h ∈ hs, FieldM.key h = none) →
      recordLoop vm entries hs st (some pv) =
        hs.foldl (fun acc h =>
          match acc with
          | Except.ok s => applyPv vm h pv s
          | Except.error e => Except.error e) (Except.ok st) := by
  intro hs
  induction hs with
  | nil => intro pv st _; rfl
  | cons h t ih =>
      intro pv st hks
      have hk : h.key = none := hks h (List.mem_cons_self h t)
      simp only [recordLoop, hk, List.foldl_cons]
      cases ha : applyPv vm h pv st with
      | ok st' => exact ih pv st' (fun g hg => hks g (List.mem_cons_of_mem h hg))
      | error e => exact (foldl_applyPv_error vm pv t e).symm

/-- C10 (confirmed): (1) a record binding whose first writable field has no
external key raises an uncaught `UnboundLocalError` (a programming-error
crash, not a field-level or aggregate validation failure) on every mapping
input, regardless of the fields' validators; (2) after a keyed field `g`
whose primitive value resolves to `pvg`, every following keyless field is
processed with that same stale `pvg` — the loop over `g :: hs` (all of `hs`
keyless) equals a fold that feeds `pvg` to every field of `hs`; (3) one loop
step on a keyless field validates it against the carried primitive value of
the most recent preceding keyed field and leaves that value unchanged, while
(4) one loop step on a keyed field validates it against its own resolved
primitive value and makes that the new carried value. -/
theorem C10_keyless_fields :
    (∀ (vm : String → Option (Val → VOutcome)) (f : FieldM) (fs : List FieldM)
      (entries : List (String × Val)), f.key = none →
      BindableModelSerializer.to_internal_value vm (f :: fs) (Val.dict entries) =
        Except.error (RecFail.crash CrashKind.unboundLocal)) ∧
    (∀ (vm : String → Option (Val → VOutcome)) (entries : List (String × Val))
      (g : FieldM) (k : String) (pvg : Option Val) (hs : List FieldM)
      (st : RecState) (c : Option (Option Val)),
      g.key = some k → resolveKeyed g k entries = Except.ok pvg →
      (∀ h ∈ hs, FieldM.key h = none) →
      recordLoop vm entries (g :: hs) st c =
        hs.foldl (fun acc h =>
          match acc with
          | Except.ok s => applyPv vm h pvg s
          | Except.error e => Except.error e) (applyPv vm g pvg st)) ∧
    (∀ (vm : String → Option (Val → VOutcome)) (entries : List (String × Val))
      (h : FieldM) (rest : List FieldM) (st : RecState) (pv : Option Val),
      FieldM.key h = none →
      recordLoop vm entries (h :: rest) st (some pv) =
        match applyPv vm h pv st with
        | Except.error c => Except.error c
        | Except.ok st' => recordLoop vm entries rest st' (some pv)) ∧
    (∀ (vm : String → Option (Val → VOutcome)) (entries : List (String × Val))
      (g : FieldM) (k : String) (pvg : Option Val) (rest : List FieldM)
      (st : RecState) (c : Option (Option Val)),
      FieldM.key g = some k → resolveKeyed g k entries = Except.ok pvg →
      recordLoop vm entries (g :: rest) st c =
        match applyPv vm g pvg st with
        | Except.error c' => Except.error c'
        | Except.ok st' => recordLoop vm entries rest st' (some pvg)) := by
  refine ⟨?_, ?_, ?_, ?_⟩
  · intro vm f fs entries hk
    simp only [BindableModelSerializer.to_internal_value, recordLoop, hk]
  · intro vm entries g k pvg hs st c hk hres hks
    simp only [recordLoop, hk, hres]
    cases ha : applyPv vm g pvg st with
    | ok st' => exact recordLoop_keyless vm entries hs pvg st' hks
    | error e => exact (foldl_applyPv_error vm pvg hs e).symm
  · intro vm entries h rest st pv hk
    simp only [recordLoop, hk]
  · intro vm entries g k pvg rest st c hk hres
    simp only [recordLoop, hk, hres]

/-- C10 witness: a binding whose only field is keyless crashes with the
unbound-local programming error on `{}`; and in a binding `[g, h]` where
`g` has key `"g"` and `h` is keyless, `h` is validated against `g`'s
resolved primitive value (5), so the assembled state maps `"h"` to 5 even
though the payload has no `"h"` slot. -/
theorem C10_keyless_fields_witness :
    BindableModelSerializer.to_internal_value (fun _ => none) [c10Keyless] (Val.dict []) =
      Except.error (RecFail.crash CrashKind.unboundLocal) ∧
    recordLoop (fun _ => none) [("g", Val.num 5)] [c10G, c10H]
      (RecState.mk (Val.dict []) []) none =
      Except.ok (RecState.mk (Val.dict [("g", Val.num 5), ("h", Val.num 5)]) []) := by
  constructor
  · exact C10_keyless_fields.1 (fun _ => none) c10Keyless [] [] rfl
  · have hkeys : ∀ h ∈ [c10H], FieldM.key h = none := by
      intro h hh
      rcases List.mem_cons.mp hh with h1 | h2
      · rw [h1]; rfl
      · exact absurd h2 (List.not_mem_nil h)
    have h := C10_keyless_fields.2.1 (fun _ => none) [("g", Val.num 5)] c10G "g"
      (some (Val.num 5)) [c10H] (RecState.mk (Val.dict []) []) none rfl rfl hkeys
    rw [h]
    rfl
